import Mathlib

/-!
# Airy-equation example driver (`design_docs/oscode/example_oscode.cpp`)

A shallow embedding of the two functions of the example, `airy_system` and `main`,
with the external ODE solver taken as a parameter.  The solver handle is an arbitrary
state type; `std::cout`, `std::cerr`, the calls made to the solver and the
acquire/release calls on the two resources are recorded in the program state.

Two readings of the arithmetic on `double` are given.  In `main` the sum `t + dt` is the
exact rational sum.  In `main_fl fl` the sum is rounded by `fl`; `main_fl round_double`
is the program in IEEE 754 binary64 arithmetic (finite values), and `main_fl id` is
`main`.
-/

namespace Oscode

/-! ## Data model -/

/-- The serial vector of the example: `N_VMake_Serial(2, ...)`, components 0 and 1. -/
structure N_Vector where
  c0 : ℚ
  c1 : ℚ
deriving DecidableEq

/-- Read access `NV_Ith_S(v, i)`. -/
def NV_Ith_S (v : N_Vector) (i : Fin 2) : ℚ :=
  if i = 0 then v.c0 else v.c1

/-- Write access `NV_Ith_S(v, i) = x`. -/
def NV_Ith_S_assign (v : N_Vector) (i : Fin 2) (x : ℚ) : N_Vector :=
  if i = 0 then { v with c0 := x } else { v with c1 := x }

/-- An untyped `void *`: `none` is `NULL`, `some a` is the address `a`. -/
abbrev VoidPtr := Option Nat

/-- What a call of the right-hand side leaves behind: the returned status and the
contents of the two vectors it was handed. -/
structure RhsResult where
  status : Int
  y : N_Vector
  ydot : N_Vector
deriving DecidableEq

/-- The right-hand side of the Airy system, lines 9-19: reads `u1`, `u2` from `y`,
stores `u2` and `t * u1` into `ydot`, returns 0.  `y` and `ydot` are the two distinct
vectors of the solver's callback interface. -/
def airy_system (t : ℚ) (y ydot : N_Vector) (_user_data : VoidPtr) : RhsResult :=
  let u1 := NV_Ith_S y 0
  let u2 := NV_Ith_S y 1
  let ydot := NV_Ith_S_assign ydot 0 u2
  let ydot := NV_Ith_S_assign ydot 1 (t * u1)
  { status := 0, y := y, ydot := ydot }

/-- One earlier invocation of the callback by the solver: its time, its input state
and its user-data pointer. -/
structure RhsCall where
  t : ℚ
  y : N_Vector
  user_data : VoidPtr

/-- The contents of a derivative buffer after the solver has invoked `airy_system`
on it once per entry of `calls`, in order. -/
def rhs_history (calls : List RhsCall) (ydot : N_Vector) : N_Vector :=
  calls.foldl (fun buf c => (airy_system c.t c.y buf c.user_data).ydot) ydot

/-- The type of a right-hand-side callback. -/
abbrev ARKRhsFn := ℚ → N_Vector → N_Vector → VoidPtr → RhsResult

/-- What one call `OSCStepEvolve(mem, tout, y, &t, itask)` leaves behind: the returned
flag, the value stored in `*tret`, the contents of `y`, and the solver's own state. -/
structure EvolveResult (σ : Type) where
  flag : Int
  tret : ℚ
  y : N_Vector
  mem : σ

/-- The external solver (`arkode/oscodezs_arkstep.h`, not part of the repository), as a
parameter.  `σ` is the memory behind a non-null handle; `OSCStepCreate` returning
`none` is the `NULL` handle.  `OSCStepEvolve` receives the handle, the target time,
the state vector, the value currently stored behind the `tret` pointer and the task. -/
structure OSCStep (σ : Type) where
  OSCStepCreate : ARKRhsFn → VoidPtr → ℚ → N_Vector → Option σ
  OSCStepSStolerances : σ → ℚ → ℚ → σ
  OSCStepEvolve : σ → ℚ → N_Vector → ℚ → Nat → EvolveResult σ

/-- The task constant `ARK_NORMAL`. -/
def ARK_NORMAL : Nat := 1

/-- One line written to `std::cout` (line 53): the time and the two components. -/
structure Record where
  t : ℚ
  y0 : ℚ
  y1 : ℚ
deriving DecidableEq

/-- One line written to `std::cerr`: line 36 or line 49 (with the printed `t`). -/
inductive Diagnostic where
  | init_error : Diagnostic
  | step_failed (t : ℚ) : Diagnostic
deriving DecidableEq

/-- One call of `OSCStepEvolve` as the driver made it: the value of `t` when the call
was made, the target passed, the flag returned and the value stored in `t`. -/
structure EvolveCall where
  t_before : ℚ
  tout : ℚ
  flag : Int
  tret : ℚ
deriving DecidableEq

/-- Where control is: still in `main`, or returned with an exit code. -/
inductive Status where
  | running : Status
  | exited (code : Int) : Status
deriving DecidableEq

/-- The state of `main`: control, the local `t`, the contents of `y0`, the solver
memory, the two output streams, the solver calls made so far, and the counters of
acquire/release calls on `y0` (`N_VMake_Serial` / `N_VDestroy`) and on `arkode_mem`
(`OSCStepCreate` / `OSCStepFree`). -/
structure Config (σ : Type) where
  status : Status
  t : ℚ
  y0 : N_Vector
  arkode_mem : Option σ
  cout : List Record
  cerr : List Diagnostic
  calls : List EvolveCall
  y0_acquired : Nat
  y0_released : Nat
  mem_acquired : Nat
  mem_released : Nat

/-! ## The driver -/

/-- One pass through line 46-54 (or the fall-through to lines 57-60), from a state
whose handle is `mem`. -/
def loop_body {σ : Type} (S : OSCStep σ) (Tf dt : ℚ) (c : Config σ) (mem : σ) :
    Config σ :=
  if c.t < Tf then
    let r := S.OSCStepEvolve mem (c.t + dt) c.y0 c.t ARK_NORMAL
    let call : EvolveCall :=
      { t_before := c.t, tout := c.t + dt, flag := r.flag, tret := r.tret }
    if r.flag < 0 then
      { c with
        status := Status.exited (-1)
        t := r.tret
        y0 := r.y
        arkode_mem := some r.mem
        cerr := c.cerr ++ [Diagnostic.step_failed r.tret]
        calls := c.calls ++ [call] }
    else
      { c with
        t := r.tret
        y0 := r.y
        arkode_mem := some r.mem
        cout := c.cout ++ [{ t := r.tret, y0 := NV_Ith_S r.y 0, y1 := NV_Ith_S r.y 1 }]
        calls := c.calls ++ [call] }
  else
    { c with
      status := Status.exited 0
      y0_released := c.y0_released + 1
      arkode_mem := none
      mem_released := c.mem_released + 1 }

/-- One step of the `while` loop: nothing happens once `main` has returned. -/
def loop_step {σ : Type} (S : OSCStep σ) (Tf dt : ℚ) (c : Config σ) : Config σ :=
  match c.status, c.arkode_mem with
  | Status.running, some mem => loop_body S Tf dt c mem
  | _, _ => c

/-- The `while` loop of lines 46-54 followed by lines 57-60, run for at most `n`
evaluations of the loop condition. -/
def driver_loop {σ : Type} (S : OSCStep σ) (Tf dt : ℚ) : Nat → Config σ → Config σ
  | 0, c => c
  | n + 1, c => driver_loop S Tf dt n (loop_step S Tf dt c)

/-- The state on reaching line 46 with handle memory `mem`: `t = T0`, one vector and
one handle acquired, nothing printed. -/
def loop_entry {σ : Type} (T0 : ℚ) (y0 : N_Vector) (mem : σ) : Config σ :=
  { status := Status.running, t := T0, y0 := y0, arkode_mem := some mem,
    cout := [], cerr := [], calls := [],
    y0_acquired := 1, y0_released := 0, mem_acquired := 1, mem_released := 0 }

/-- The state in which `main` returns at line 37. -/
def create_failed {σ : Type} (T0 : ℚ) (y0 : N_Vector) : Config σ :=
  { status := Status.exited (-1), t := T0, y0 := y0, arkode_mem := none,
    cout := [], cerr := [Diagnostic.init_error], calls := [],
    y0_acquired := 1, y0_released := 0, mem_acquired := 0, mem_released := 0 }

/-- The function `main`, with its constants `T0`, `Tf`, `dt` and the two values of the
special-function evaluator as parameters, run for at most `n` evaluations of the loop
condition. -/
def main {σ : Type} (S : OSCStep σ) (T0 Tf dt : ℚ) (airy_ai airy_ai_prime : ℚ) (n : Nat) :
    Config σ :=
  let y0 : N_Vector := { c0 := airy_ai, c1 := airy_ai_prime }
  match S.OSCStepCreate airy_system none T0 y0 with
  | none => create_failed T0 y0
  | some arkode_mem =>
    let reltol : ℚ := 1 / 1000000
    let abstol : ℚ := 1 / 100000000
    driver_loop S Tf dt n (loop_entry T0 y0 (S.OSCStepSStolerances arkode_mem reltol abstol))


/-! ## The driver in rounded arithmetic -/

/-- The pass of `loop_body` with the sum `t + dt` of line 47 rounded by `fl`. -/
def loop_body_fl {σ : Type} (fl : ℚ → ℚ) (S : OSCStep σ) (Tf dt : ℚ) (c : Config σ)
    (mem : σ) : Config σ :=
  if c.t < Tf then
    let r := S.OSCStepEvolve mem (fl (c.t + dt)) c.y0 c.t ARK_NORMAL
    let call : EvolveCall :=
      { t_before := c.t, tout := fl (c.t + dt), flag := r.flag, tret := r.tret }
    if r.flag < 0 then
      { c with
        status := Status.exited (-1)
        t := r.tret
        y0 := r.y
        arkode_mem := some r.mem
        cerr := c.cerr ++ [Diagnostic.step_failed r.tret]
        calls := c.calls ++ [call] }
    else
      { c with
        t := r.tret
        y0 := r.y
        arkode_mem := some r.mem
        cout := c.cout ++ [{ t := r.tret, y0 := NV_Ith_S r.y 0, y1 := NV_Ith_S r.y 1 }]
        calls := c.calls ++ [call] }
  else
    { c with
      status := Status.exited 0
      y0_released := c.y0_released + 1
      arkode_mem := none
      mem_released := c.mem_released + 1 }

/-- One step of the `while` loop in arithmetic rounded by `fl`. -/
def loop_step_fl {σ : Type} (fl : ℚ → ℚ) (S : OSCStep σ) (Tf dt : ℚ) (c : Config σ) :
    Config σ :=
  match c.status, c.arkode_mem with
  | Status.running, some mem => loop_body_fl fl S Tf dt c mem
  | _, _ => c

/-- The `while` loop in arithmetic rounded by `fl`, run for at most `n` evaluations of
the loop condition. -/
def driver_loop_fl {σ : Type} (fl : ℚ → ℚ) (S : OSCStep σ) (Tf dt : ℚ) :
    Nat → Config σ → Config σ
  | 0, c => c
  | n + 1, c => driver_loop_fl fl S Tf dt n (loop_step_fl fl S Tf dt c)

/-- The function `main` in arithmetic rounded by `fl`; `T0`, `Tf`, `dt` and the two
initial values are the `double` values of the constants. -/
def main_fl {σ : Type} (fl : ℚ → ℚ) (S : OSCStep σ) (T0 Tf dt : ℚ)
    (airy_ai airy_ai_prime : ℚ) (n : Nat) : Config σ :=
  let y0 : N_Vector := { c0 := airy_ai, c1 := airy_ai_prime }
  match S.OSCStepCreate airy_system none T0 y0 with
  | none => create_failed T0 y0
  | some arkode_mem =>
    let reltol : ℚ := 1 / 1000000
    let abstol : ℚ := 1 / 100000000
    driver_loop_fl fl S Tf dt n
      (loop_entry T0 y0 (S.OSCStepSStolerances arkode_mem reltol abstol))

/-! ## Properties of solver stubs and of call traces -/

/-- The stub reports the requested target time as the time reached, on every call. -/
def ReportsTarget {σ : Type} (S : OSCStep σ) : Prop :=
  ∀ mem tout y t itask, (S.OSCStepEvolve mem tout y t itask).tret = tout

/-- The stub returns a non-negative status on every call. -/
def AlwaysSucceeds {σ : Type} (S : OSCStep σ) : Prop :=
  ∀ mem tout y t itask, 0 ≤ (S.OSCStepEvolve mem tout y t itask).flag

/-- On every call the stub either returns a negative status or reports the requested
target time as the time reached. -/
def FailsOrReportsTarget {σ : Type} (S : OSCStep σ) : Prop :=
  ∀ mem tout y t itask,
    (S.OSCStepEvolve mem tout y t itask).flag < 0 ∨
      (S.OSCStepEvolve mem tout y t itask).tret = tout

/-- Every call of the list returned a non-negative flag. -/
def all_succeeded (cs : List EvolveCall) : Prop := ∀ c ∈ cs, 0 ≤ c.flag

/-- The calls of `cs` follow one another from time `s` to time `e`: each is made at the
time the previous one stored (the first at `s`), each asks for its own time plus `dt`,
and `e` is the time the last one stored (`s` if there is none). -/
def linked (dt : ℚ) : ℚ → List EvolveCall → ℚ → Prop
  | s, [], e => e = s
  | s, c :: cs, e => c.t_before = s ∧ c.tout = s + dt ∧ linked dt c.tret cs e

/-- What holds of the streams and counters in each control state of the loop. -/
def outcome_ok {σ : Type} (Tf : ℚ) (c : Config σ) : Prop :=
  match c.status with
  | Status.running =>
      c.arkode_mem.isSome ∧ all_succeeded c.calls ∧ c.cout.length = c.calls.length ∧
        c.cerr = [] ∧ c.y0_released = 0 ∧ c.mem_released = 0
  | Status.exited code =>
      (code = 0 ∧ all_succeeded c.calls ∧ c.cout.length = c.calls.length ∧ Tf ≤ c.t ∧
        c.cerr = [] ∧ c.y0_released = 1 ∧ c.mem_released = 1) ∨
      (code = -1 ∧ ∃ init last, c.calls = init ++ [last] ∧ all_succeeded init ∧
        last.flag < 0 ∧ c.cout.length = init.length ∧
        c.cerr = [Diagnostic.step_failed last.tret] ∧
        c.y0_released = 0 ∧ c.mem_released = 0)

/-- The invariant of the driver loop started at time `T0`. -/
def loop_inv {σ : Type} (T0 Tf dt : ℚ) (c : Config σ) : Prop :=
  linked dt T0 c.calls c.t ∧ (∀ call ∈ c.calls, call.t_before < Tf) ∧
    c.y0_acquired = 1 ∧ c.mem_acquired = 1 ∧ outcome_ok Tf c

/-! ## Concrete inputs -/

/-- The initial value `Ai(0)`, to the ten decimals the specification quotes. -/
def airy_ai_0 : ℚ := 3550280539 / 10000000000

/-- The initial value `Ai'(0)`, to the ten decimals the specification quotes. -/
def airy_ai_prime_0 : ℚ := -2588194038 / 10000000000

/-- A solver stub whose handle memory counts the calls made: creation succeeds, every
call returns 0, leaves the state vector as it is and reports the requested target. -/
def stub_ok : OSCStep Nat :=
  { OSCStepCreate := fun _ _ _ _ => some 0
    OSCStepSStolerances := fun mem _ _ => mem
    OSCStepEvolve := fun mem tout y _ _ =>
      { flag := 0, tret := tout, y := y, mem := mem + 1 } }

/-- A solver stub that counts its calls and returns -1 on call number `k`, storing `tw`
as the time reached there; every other call returns 0 and reports its target. -/
def stub_fail_at (k : Nat) (tw : ℚ) : OSCStep Nat :=
  { OSCStepCreate := fun _ _ _ _ => some 0
    OSCStepSStolerances := fun mem _ _ => mem
    OSCStepEvolve := fun mem tout y _ _ =>
      if mem + 1 = k then { flag := -1, tret := tw, y := y, mem := mem + 1 }
      else { flag := 0, tret := tout, y := y, mem := mem + 1 } }

/-- A solver stub whose creation returns the `NULL` handle. -/
def stub_null : OSCStep Nat :=
  { OSCStepCreate := fun _ _ _ _ => none
    OSCStepSStolerances := fun mem _ _ => mem
    OSCStepEvolve := fun mem tout y _ _ =>
      { flag := 0, tret := tout, y := y, mem := mem + 1 } }

/-! ## Basic facts about the loop -/

section Loop

variable {σ : Type} (S : OSCStep σ) (Tf dt : ℚ)

theorem loop_step_exited (c : Config σ) (code : Int)
    (h : c.status = Status.exited code) : loop_step S Tf dt c = c := by
  unfold loop_step
  rw [h]

theorem driver_loop_exited (n : Nat) (c : Config σ) (code : Int)
    (h : c.status = Status.exited code) : driver_loop S Tf dt n c = c := by
  induction n with
  | zero => rfl
  | succ n ih => rw [driver_loop, loop_step_exited S Tf dt c code h, ih]

theorem driver_loop_succ (n : Nat) (c : Config σ) :
    driver_loop S Tf dt (n + 1) c = loop_step S Tf dt (driver_loop S Tf dt n c) := by
  induction n generalizing c with
  | zero => rfl
  | succ n ih => rw [driver_loop, ih, ← driver_loop]

theorem driver_loop_add (m n : Nat) (c : Config σ) :
    driver_loop S Tf dt (m + n) c = driver_loop S Tf dt n (driver_loop S Tf dt m c) := by
  induction m generalizing c with
  | zero => simp [driver_loop]
  | succ m ih => rw [Nat.succ_add, driver_loop, ih, ← driver_loop]

/-- Once the loop has stopped, further steps change nothing. -/
theorem driver_loop_stable (m n : Nat) (c : Config σ) (code : Int) (hmn : m ≤ n)
    (h : (driver_loop S Tf dt m c).status = Status.exited code) :
    driver_loop S Tf dt n c = driver_loop S Tf dt m c := by
  obtain ⟨d, rfl⟩ := Nat.exists_eq_add_of_le hmn
  rw [driver_loop_add, driver_loop_exited S Tf dt d _ code h]

/-- A loop still running after `n + 1` steps was running after `n`. -/
theorem running_of_running_succ (n : Nat) (c : Config σ)
    (h : (driver_loop S Tf dt (n + 1) c).status = Status.running) :
    (driver_loop S Tf dt n c).status = Status.running := by
  cases hs : (driver_loop S Tf dt n c).status with
  | running => rfl
  | exited code =>
    rw [driver_loop_stable S Tf dt n (n + 1) c code (Nat.le_succ n) hs, hs] at h
    cases h

theorem linked_snoc (dt s m : ℚ) (cs : List EvolveCall) (call : EvolveCall)
    (h : linked dt s cs m) (hb : call.t_before = m) (ht : call.tout = m + dt) :
    linked dt s (cs ++ [call]) call.tret := by
  induction cs generalizing s with
  | nil =>
    simp only [linked] at h
    subst h
    simp [linked, hb, ht]
  | cons c cs ih =>
    simp only [linked] at h
    simp only [List.cons_append, linked]
    exact ⟨h.1, h.2.1, ih _ h.2.2⟩

theorem all_succeeded_snoc (cs : List EvolveCall) (call : EvolveCall)
    (h : all_succeeded cs) (hc : 0 ≤ call.flag) : all_succeeded (cs ++ [call]) := by
  intro c hmem
  rcases List.mem_append.1 hmem with h1 | h1
  · exact h c h1
  · rw [List.mem_singleton] at h1
    rw [h1]
    exact hc

theorem loop_inv_entry (T0 : ℚ) (y0 : N_Vector) (mem : σ) :
    loop_inv T0 Tf dt (loop_entry T0 y0 mem) := by
  simp [loop_inv, loop_entry, linked, outcome_ok, all_succeeded]

theorem loop_inv_step (T0 : ℚ) (c : Config σ) (h : loop_inv T0 Tf dt c) :
    loop_inv T0 Tf dt (loop_step S Tf dt c) := by
  obtain ⟨hl, hb, ha1, ha2, ho⟩ := h
  unfold loop_step
  split
  next mem hs hm =>
    simp only [outcome_ok, hs] at ho
    obtain ⟨-, hall, hlen, herr, hr1, hr2⟩ := ho
    unfold loop_body
    by_cases hlt : c.t < Tf
    · simp only [hlt, if_true]
      by_cases hf : (S.OSCStepEvolve mem (c.t + dt) c.y0 c.t ARK_NORMAL).flag < 0
      · simp only [hf, if_true]
        refine ⟨linked_snoc dt T0 c.t c.calls _ hl rfl rfl, ?_, ha1, ha2, ?_⟩
        · intro call hmem
          rcases List.mem_append.1 hmem with h1 | h1
          · exact hb call h1
          · rw [List.mem_singleton] at h1
            rw [h1]
            exact hlt
        · simp only [outcome_ok]
          right
          exact ⟨trivial, c.calls, _, rfl, hall, hf, hlen, by simp [herr], hr1, hr2⟩
      · simp only [hf, if_false]
        refine ⟨linked_snoc dt T0 c.t c.calls _ hl rfl rfl, ?_, ha1, ha2, ?_⟩
        · intro call hmem
          rcases List.mem_append.1 hmem with h1 | h1
          · exact hb call h1
          · rw [List.mem_singleton] at h1
            rw [h1]
            exact hlt
        · simp only [outcome_ok, hs]
          refine ⟨rfl, all_succeeded_snoc _ _ hall (not_lt.1 hf), ?_, herr, hr1, hr2⟩
          simp [hlen]
    · simp only [hlt, if_false]
      refine ⟨hl, hb, ha1, ha2, ?_⟩
      simp only [outcome_ok]
      left
      exact ⟨trivial, hall, hlen, not_lt.1 hlt, herr, by simp [hr1], by simp [hr2]⟩
  next => exact ⟨hl, hb, ha1, ha2, ho⟩

theorem loop_inv_driver_loop (T0 : ℚ) (n : Nat) (c : Config σ) (h : loop_inv T0 Tf dt c) :
    loop_inv T0 Tf dt (driver_loop S Tf dt n c) := by
  induction n with
  | zero => exact h
  | succ n ih =>
    rw [driver_loop_succ]
    exact loop_inv_step S Tf dt T0 _ ih

theorem loop_step_running (c : Config σ) (mem : σ) (hs : c.status = Status.running)
    (hm : c.arkode_mem = some mem) : loop_step S Tf dt c = loop_body S Tf dt c mem := by
  unfold loop_step
  rw [hs, hm]

/-- A running state satisfying the invariant holds a handle. -/
theorem handle_of_running (T0 : ℚ) (c : Config σ) (h : loop_inv T0 Tf dt c)
    (hs : c.status = Status.running) : ∃ mem, c.arkode_mem = some mem := by
  have ho := h.2.2.2.2
  simp only [outcome_ok, hs] at ho
  exact Option.isSome_iff_exists.1 ho.1

theorem loop_body_done (c : Config σ) (mem : σ) (h : ¬ c.t < Tf) :
    loop_body S Tf dt c mem =
      { c with
        status := Status.exited 0
        y0_released := c.y0_released + 1
        arkode_mem := none
        mem_released := c.mem_released + 1 } := by
  unfold loop_body
  simp only [h, if_false]

theorem loop_body_fail (c : Config σ) (mem : σ) (h : c.t < Tf)
    (hf : (S.OSCStepEvolve mem (c.t + dt) c.y0 c.t ARK_NORMAL).flag < 0) :
    loop_body S Tf dt c mem =
      { c with
        status := Status.exited (-1)
        t := (S.OSCStepEvolve mem (c.t + dt) c.y0 c.t ARK_NORMAL).tret
        y0 := (S.OSCStepEvolve mem (c.t + dt) c.y0 c.t ARK_NORMAL).y
        arkode_mem := some (S.OSCStepEvolve mem (c.t + dt) c.y0 c.t ARK_NORMAL).mem
        cerr := c.cerr ++
          [Diagnostic.step_failed (S.OSCStepEvolve mem (c.t + dt) c.y0 c.t ARK_NORMAL).tret]
        calls := c.calls ++
          [{ t_before := c.t, tout := c.t + dt,
             flag := (S.OSCStepEvolve mem (c.t + dt) c.y0 c.t ARK_NORMAL).flag,
             tret := (S.OSCStepEvolve mem (c.t + dt) c.y0 c.t ARK_NORMAL).tret }] } := by
  unfold loop_body
  simp only [h, hf, if_true]

theorem loop_body_ok (c : Config σ) (mem : σ) (h : c.t < Tf)
    (hf : ¬ (S.OSCStepEvolve mem (c.t + dt) c.y0 c.t ARK_NORMAL).flag < 0) :
    loop_body S Tf dt c mem =
      { c with
        t := (S.OSCStepEvolve mem (c.t + dt) c.y0 c.t ARK_NORMAL).tret
        y0 := (S.OSCStepEvolve mem (c.t + dt) c.y0 c.t ARK_NORMAL).y
        arkode_mem := some (S.OSCStepEvolve mem (c.t + dt) c.y0 c.t ARK_NORMAL).mem
        cout := c.cout ++
          [{ t := (S.OSCStepEvolve mem (c.t + dt) c.y0 c.t ARK_NORMAL).tret,
             y0 := NV_Ith_S (S.OSCStepEvolve mem (c.t + dt) c.y0 c.t ARK_NORMAL).y 0,
             y1 := NV_Ith_S (S.OSCStepEvolve mem (c.t + dt) c.y0 c.t ARK_NORMAL).y 1 }]
        calls := c.calls ++
          [{ t_before := c.t, tout := c.t + dt,
             flag := (S.OSCStepEvolve mem (c.t + dt) c.y0 c.t ARK_NORMAL).flag,
             tret := (S.OSCStepEvolve mem (c.t + dt) c.y0 c.t ARK_NORMAL).tret }] } := by
  unfold loop_body
  simp only [h, hf, if_true, if_false]

theorem calls_prefix_step (c : Config σ) : c.calls <+: (loop_step S Tf dt c).calls := by
  unfold loop_step
  split
  next mem hs hm =>
    by_cases h1 : c.t < Tf
    · by_cases h2 : (S.OSCStepEvolve mem (c.t + dt) c.y0 c.t ARK_NORMAL).flag < 0
      · rw [loop_body_fail S Tf dt c mem h1 h2]
        exact List.prefix_append _ _
      · rw [loop_body_ok S Tf dt c mem h1 h2]
        exact List.prefix_append _ _
    · rw [loop_body_done S Tf dt c mem h1]
  next => exact List.prefix_refl _

theorem calls_prefix_driver_loop (n : Nat) (c : Config σ) :
    c.calls <+: (driver_loop S Tf dt n c).calls := by
  induction n with
  | zero => exact List.prefix_refl _
  | succ n ih =>
    rw [driver_loop_succ]
    exact List.IsPrefix.trans ih (calls_prefix_step S Tf dt _)

theorem calls_length_step (c : Config σ) :
    (loop_step S Tf dt c).calls.length ≤ c.calls.length + 1 := by
  unfold loop_step
  split
  next mem hs hm =>
    by_cases h1 : c.t < Tf
    · by_cases h2 : (S.OSCStepEvolve mem (c.t + dt) c.y0 c.t ARK_NORMAL).flag < 0
      · rw [loop_body_fail S Tf dt c mem h1 h2]
        simp
      · rw [loop_body_ok S Tf dt c mem h1 h2]
        simp
    · rw [loop_body_done S Tf dt c mem h1]
      simp
  next => simp

theorem calls_length_driver_loop (n : Nat) (c : Config σ) :
    (driver_loop S Tf dt n c).calls.length ≤ c.calls.length + n := by
  induction n with
  | zero => simp [driver_loop]
  | succ n ih =>
    rw [driver_loop_succ]
    have := calls_length_step S Tf dt (driver_loop S Tf dt n c)
    omega

/-- A step from a running state that leaves the loop running made one successful call
at a time below `Tf`. -/
theorem step_running (c : Config σ) (mem : σ) (hs : c.status = Status.running)
    (hm : c.arkode_mem = some mem)
    (h : (loop_step S Tf dt c).status = Status.running) :
    c.t < Tf ∧ ¬ (S.OSCStepEvolve mem (c.t + dt) c.y0 c.t ARK_NORMAL).flag < 0 := by
  rw [loop_step_running S Tf dt c mem hs hm] at h
  by_cases h1 : c.t < Tf
  · by_cases h2 : (S.OSCStepEvolve mem (c.t + dt) c.y0 c.t ARK_NORMAL).flag < 0
    · rw [loop_body_fail S Tf dt c mem h1 h2] at h
      simp at h
    · exact ⟨h1, h2⟩
  · rw [loop_body_done S Tf dt c mem h1] at h
    simp at h

/-- While the loop is running, every step makes exactly one solver call. -/
theorem calls_length_running (T0 : ℚ) (n : Nat) (c : Config σ) (h : loop_inv T0 Tf dt c)
    (hs : (driver_loop S Tf dt n c).status = Status.running) :
    (driver_loop S Tf dt n c).calls.length = c.calls.length + n := by
  induction n with
  | zero => simp [driver_loop]
  | succ n ih =>
    have hrun := running_of_running_succ S Tf dt n c hs
    have hlen := ih hrun
    have hinv := loop_inv_driver_loop S Tf dt T0 n c h
    obtain ⟨mem, hm⟩ := handle_of_running Tf dt T0 _ hinv hrun
    rw [driver_loop_succ] at hs ⊢
    obtain ⟨h1, h2⟩ := step_running S Tf dt _ mem hrun hm hs
    rw [loop_step_running S Tf dt _ mem hrun hm, loop_body_ok S Tf dt _ mem h1 h2]
    simp [hlen, Nat.add_assoc]

/-- While the loop is running against a stub that fails or reports its target, the
time after `n` steps is `T0 + n * dt`. -/
theorem time_running (T0 : ℚ) (y0 : N_Vector) (mem0 : σ) (hS : FailsOrReportsTarget S)
    (n : Nat)
    (hs : (driver_loop S Tf dt n (loop_entry T0 y0 mem0)).status = Status.running) :
    (driver_loop S Tf dt n (loop_entry T0 y0 mem0)).t = T0 + (n : ℚ) * dt := by
  induction n with
  | zero => simp [driver_loop, loop_entry]
  | succ n ih =>
    have hrun := running_of_running_succ S Tf dt n _ hs
    have ht := ih hrun
    have hinv := loop_inv_driver_loop S Tf dt T0 n _ (loop_inv_entry Tf dt T0 y0 mem0)
    obtain ⟨mem, hm⟩ := handle_of_running Tf dt T0 _ hinv hrun
    rw [driver_loop_succ] at hs ⊢
    obtain ⟨h1, h2⟩ := step_running S Tf dt _ mem hrun hm hs
    rw [loop_step_running S Tf dt _ mem hrun hm, loop_body_ok S Tf dt _ mem h1 h2]
    rcases hS mem ((driver_loop S Tf dt n (loop_entry T0 y0 mem0)).t + dt)
        (driver_loop S Tf dt n (loop_entry T0 y0 mem0)).y0
        (driver_loop S Tf dt n (loop_entry T0 y0 mem0)).t ARK_NORMAL with hneg | htr
    · exact absurd hneg h2
    · show (S.OSCStepEvolve mem ((driver_loop S Tf dt n (loop_entry T0 y0 mem0)).t + dt)
        (driver_loop S Tf dt n (loop_entry T0 y0 mem0)).y0
        (driver_loop S Tf dt n (loop_entry T0 y0 mem0)).t ARK_NORMAL).tret = _
      rw [htr, ht]
      push_cast
      ring

/-- Against a stub that fails or reports its target, with `dt > 0`, the loop has
stopped after `⌈(Tf - T0) / dt⌉ + 1` evaluations of its condition. -/
theorem stops_within (T0 : ℚ) (y0 : N_Vector) (mem0 : σ) (hdt : 0 < dt)
    (hS : FailsOrReportsTarget S) (n : Nat) (hn : ⌈(Tf - T0) / dt⌉₊ + 1 ≤ n) :
    ∃ code, (driver_loop S Tf dt n (loop_entry T0 y0 mem0)).status = Status.exited code := by
  have key : ∃ code, (driver_loop S Tf dt (⌈(Tf - T0) / dt⌉₊ + 1)
      (loop_entry T0 y0 mem0)).status = Status.exited code := by
    cases hs : (driver_loop S Tf dt (⌈(Tf - T0) / dt⌉₊ + 1) (loop_entry T0 y0 mem0)).status with
    | exited code => exact ⟨code, rfl⟩
    | running =>
      exfalso
      have hrun := running_of_running_succ S Tf dt _ _ hs
      have ht := time_running S Tf dt T0 y0 mem0 hS _ hrun
      have hinv := loop_inv_driver_loop S Tf dt T0 ⌈(Tf - T0) / dt⌉₊ _
        (loop_inv_entry Tf dt T0 y0 mem0)
      obtain ⟨mem, hm⟩ := handle_of_running Tf dt T0 _ hinv hrun
      have hge : Tf ≤ T0 + (⌈(Tf - T0) / dt⌉₊ : ℚ) * dt := by
        have h1 : (Tf - T0) / dt ≤ (⌈(Tf - T0) / dt⌉₊ : ℚ) := Nat.le_ceil _
        have h2 := (div_le_iff₀ hdt).1 h1
        linarith
      rw [driver_loop_succ, loop_step_running S Tf dt _ mem hrun hm,
        loop_body_done S Tf dt _ mem (by rw [ht]; exact not_lt.2 hge)] at hs
      simp at hs
  obtain ⟨code, hcode⟩ := key
  refine ⟨code, ?_⟩
  rw [driver_loop_stable S Tf dt _ n _ code hn hcode, hcode]

theorem linked_tout (s e : ℚ) (cs : List EvolveCall) (h : linked dt s cs e) :
    ∀ call ∈ cs, call.tout = call.t_before + dt := by
  induction cs generalizing s with
  | nil => simp
  | cons c cs ih =>
    simp only [linked] at h
    intro call hmem
    rcases List.mem_cons.1 hmem with h1 | h1
    · rw [h1, h.1, h.2.1]
    · exact ih _ h.2.2 call h1

theorem linked_head (s e : ℚ) (cs : List EvolveCall) (h : linked dt s cs e)
    (c : EvolveCall) (hc : cs[0]? = some c) : c.t_before = s := by
  cases cs with
  | nil => simp at hc
  | cons a cs =>
    simp only [List.getElem?_cons_zero, Option.some.injEq] at hc
    simp only [linked] at h
    rw [← hc, h.1]

theorem linked_next (s e : ℚ) (cs : List EvolveCall) (h : linked dt s cs e) (i : Nat)
    (p q : EvolveCall) (hp : cs[i]? = some p) (hq : cs[i + 1]? = some q) :
    q.t_before = p.tret := by
  induction cs generalizing s i with
  | nil => simp at hp
  | cons a cs ih =>
    simp only [linked] at h
    cases i with
    | zero =>
      simp only [List.getElem?_cons_zero, Option.some.injEq] at hp
      simp only [Nat.zero_add, List.getElem?_cons_succ] at hq
      rw [← hp]
      exact linked_head dt _ e cs h.2.2 q hq
    | succ i =>
      simp only [List.getElem?_cons_succ] at hp hq
      exact ih _ h.2.2 i hp hq

/-- Against a stub that always succeeds and reports its target, with `dt > 0`, the loop
is still running after `n ≤ ⌈(Tf - T0) / dt⌉` steps, has printed `n` records, and the
last of them carries the time `T0 + n * dt`. -/
theorem run_ok (T0 : ℚ) (y0 : N_Vector) (mem0 : σ) (hdt : 0 < dt)
    (hA : AlwaysSucceeds S) (hR : ReportsTarget S) (n : Nat)
    (hn : n ≤ ⌈(Tf - T0) / dt⌉₊) :
    (driver_loop S Tf dt n (loop_entry T0 y0 mem0)).status = Status.running ∧
      (driver_loop S Tf dt n (loop_entry T0 y0 mem0)).cout.length = n ∧
      (1 ≤ n → ∃ r, (driver_loop S Tf dt n (loop_entry T0 y0 mem0)).cout.getLast? = some r ∧
        r.t = T0 + (n : ℚ) * dt) := by
  have hS : FailsOrReportsTarget S := fun mem tout y t itask => Or.inr (hR mem tout y t itask)
  induction n with
  | zero => simp [driver_loop, loop_entry]
  | succ n ih =>
    obtain ⟨hrun, hlen, -⟩ := ih (Nat.le_of_succ_le hn)
    have ht := time_running S Tf dt T0 y0 mem0 hS n hrun
    have hinv := loop_inv_driver_loop S Tf dt T0 n _ (loop_inv_entry Tf dt T0 y0 mem0)
    obtain ⟨mem, hm⟩ := handle_of_running Tf dt T0 _ hinv hrun
    have h1 : (driver_loop S Tf dt n (loop_entry T0 y0 mem0)).t < Tf := by
      have h3 : (n : ℚ) < (Tf - T0) / dt := Nat.lt_ceil.1 (Nat.lt_of_succ_le hn)
      have h4 := (lt_div_iff₀ hdt).1 h3
      rw [ht]
      linarith
    have h2 : ¬ (S.OSCStepEvolve mem ((driver_loop S Tf dt n (loop_entry T0 y0 mem0)).t + dt)
        (driver_loop S Tf dt n (loop_entry T0 y0 mem0)).y0
        (driver_loop S Tf dt n (loop_entry T0 y0 mem0)).t ARK_NORMAL).flag < 0 :=
      not_lt.2 (hA _ _ _ _ _)
    rw [driver_loop_succ, loop_step_running S Tf dt _ mem hrun hm,
      loop_body_ok S Tf dt _ mem h1 h2]
    refine ⟨hrun, by simp [hlen], fun _ => ⟨_, List.getLast?_concat _, ?_⟩⟩
    show (S.OSCStepEvolve mem ((driver_loop S Tf dt n (loop_entry T0 y0 mem0)).t + dt)
        (driver_loop S Tf dt n (loop_entry T0 y0 mem0)).y0
        (driver_loop S Tf dt n (loop_entry T0 y0 mem0)).t ARK_NORMAL).tret = _
    rw [hR, ht]
    push_cast
    ring

/-- Against such a stub the loop has returned 0 after more than `⌈(Tf - T0) / dt⌉`
steps, with the records it had printed after `⌈(Tf - T0) / dt⌉` steps. -/
theorem run_done (T0 : ℚ) (y0 : N_Vector) (mem0 : σ) (hdt : 0 < dt)
    (hA : AlwaysSucceeds S) (hR : ReportsTarget S) (n : Nat)
    (hn : ⌈(Tf - T0) / dt⌉₊ < n) :
    (driver_loop S Tf dt n (loop_entry T0 y0 mem0)).status = Status.exited 0 ∧
      (driver_loop S Tf dt n (loop_entry T0 y0 mem0)).cout =
        (driver_loop S Tf dt ⌈(Tf - T0) / dt⌉₊ (loop_entry T0 y0 mem0)).cout := by
  have hS : FailsOrReportsTarget S := fun mem tout y t itask => Or.inr (hR mem tout y t itask)
  obtain ⟨hrun, -, -⟩ := run_ok S Tf dt T0 y0 mem0 hdt hA hR _ (Nat.le_refl _)
  have ht := time_running S Tf dt T0 y0 mem0 hS _ hrun
  have hinv := loop_inv_driver_loop S Tf dt T0 ⌈(Tf - T0) / dt⌉₊ _
    (loop_inv_entry Tf dt T0 y0 mem0)
  obtain ⟨mem, hm⟩ := handle_of_running Tf dt T0 _ hinv hrun
  have hge : Tf ≤ T0 + (⌈(Tf - T0) / dt⌉₊ : ℚ) * dt := by
    have h1 : (Tf - T0) / dt ≤ (⌈(Tf - T0) / dt⌉₊ : ℚ) := Nat.le_ceil _
    have h2 := (div_le_iff₀ hdt).1 h1
    linarith
  have hstep := loop_body_done S Tf dt
    (driver_loop S Tf dt ⌈(Tf - T0) / dt⌉₊ (loop_entry T0 y0 mem0)) mem
    (by rw [ht]; exact not_lt.2 hge)
  rw [← loop_step_running S Tf dt _ mem hrun hm, ← driver_loop_succ] at hstep
  have hst : (driver_loop S Tf dt (⌈(Tf - T0) / dt⌉₊ + 1) (loop_entry T0 y0 mem0)).status =
      Status.exited 0 := by rw [hstep]
  rw [driver_loop_stable S Tf dt _ n _ 0 hn hst]
  exact ⟨hst, by rw [hstep]⟩

/-- If the `k`-th call of the trace returned a negative flag, the loop stopped right
there: from `k` steps on the state no longer changes, the exit code is -1, `k` calls
were made, `k - 1` records printed, and the diagnostic carries the time that call
stored. -/
theorem first_failure (T0 : ℚ) (y0 : N_Vector) (mem0 : σ) (m k : Nat) (call : EvolveCall)
    (hk : 1 ≤ k)
    (hcall : (driver_loop S Tf dt m (loop_entry T0 y0 mem0)).calls[k - 1]? = some call)
    (hneg : call.flag < 0) (n : Nat) (hn : k ≤ n) :
    driver_loop S Tf dt n (loop_entry T0 y0 mem0) =
        driver_loop S Tf dt m (loop_entry T0 y0 mem0) ∧
      (driver_loop S Tf dt m (loop_entry T0 y0 mem0)).status = Status.exited (-1) ∧
      (driver_loop S Tf dt m (loop_entry T0 y0 mem0)).calls.length = k ∧
      (driver_loop S Tf dt m (loop_entry T0 y0 mem0)).cout.length = k - 1 ∧
      (driver_loop S Tf dt m (loop_entry T0 y0 mem0)).cerr =
        [Diagnostic.step_failed call.tret] ∧
      all_succeeded ((driver_loop S Tf dt m (loop_entry T0 y0 mem0)).calls.take (k - 1)) := by
  have hentry := loop_inv_entry Tf dt T0 y0 mem0
  have hinv := loop_inv_driver_loop S Tf dt T0 m _ hentry
  have hmem : call ∈ (driver_loop S Tf dt m (loop_entry T0 y0 mem0)).calls :=
    List.getElem?_mem hcall
  have hnot : ¬ all_succeeded (driver_loop S Tf dt m (loop_entry T0 y0 mem0)).calls :=
    fun hall => absurd (hall call hmem) (not_le.2 hneg)
  have ho := hinv.2.2.2.2
  have hlenm := calls_length_driver_loop S Tf dt m (loop_entry T0 y0 mem0)
  have hlt : k - 1 < (driver_loop S Tf dt m (loop_entry T0 y0 mem0)).calls.length := by
    rcases Nat.lt_or_ge (k - 1)
      (driver_loop S Tf dt m (loop_entry T0 y0 mem0)).calls.length with h | h
    · exact h
    · rw [List.getElem?_eq_none h] at hcall
      cases hcall
  have h0 : (loop_entry T0 y0 mem0).calls.length = 0 := rfl
  have hkm : k ≤ m := by
    rw [h0] at hlenm
    omega
  cases hst : (driver_loop S Tf dt m (loop_entry T0 y0 mem0)).status with
  | running =>
    simp only [outcome_ok, hst] at ho
    exact absurd ho.2.1 hnot
  | exited code =>
    simp only [outcome_ok, hst] at ho
    rcases ho with ⟨-, hall, -⟩ | ⟨hcode, init, last, hcalls, hinit, hlast, hcout, hcerr, -⟩
    · exact absurd hall hnot
    · have hidx : k - 1 = init.length := by
        rcases Nat.lt_or_ge (k - 1) init.length with h | h
        · exfalso
          rw [hcalls, List.getElem?_append_left h] at hcall
          exact absurd (hinit call (List.getElem?_mem hcall)) (not_le.2 hneg)
        · rw [hcalls] at hlt
          simp only [List.length_append, List.length_singleton] at hlt
          omega
      have hlast_eq : last = call := by
        rw [hcalls, hidx] at hcall
        simpa using hcall
      have hlen : (driver_loop S Tf dt m (loop_entry T0 y0 mem0)).calls.length = k := by
        rw [hcalls]
        simp only [List.length_append, List.length_singleton]
        omega
      refine ⟨?_, by rw [hcode], hlen, by omega, by rw [hcerr, hlast_eq], by
        rw [hcalls, hidx, List.take_left]
        exact hinit⟩
      cases hsk : (driver_loop S Tf dt k (loop_entry T0 y0 mem0)).status with
      | exited code2 =>
        rw [driver_loop_stable S Tf dt k n _ code2 hn hsk,
          driver_loop_stable S Tf dt k m _ code2 hkm hsk]
      | running =>
        exfalso
        have hinvk := loop_inv_driver_loop S Tf dt T0 k _ hentry
        have hok := hinvk.2.2.2.2
        simp only [outcome_ok, hsk] at hok
        have hlenk := calls_length_running S Tf dt T0 k _ hentry hsk
        rw [h0] at hlenk
        obtain ⟨d, hd⟩ := Nat.exists_eq_add_of_le hkm
        have hpre := calls_prefix_driver_loop S Tf dt d
          (driver_loop S Tf dt k (loop_entry T0 y0 mem0))
        rw [← driver_loop_add, ← hd] at hpre
        obtain ⟨rest, hrest⟩ := hpre
        rw [← hrest, List.getElem?_append_left (by omega)] at hcall
        exact absurd (hok.2.1 call (List.getElem?_mem hcall)) (not_le.2 hneg)

end Loop

/-! ## `main` in terms of the loop -/

section Main

variable {σ : Type} (S : OSCStep σ) (T0 Tf dt a b : ℚ)

theorem main_create_none (n : Nat)
    (h : S.OSCStepCreate airy_system none T0 { c0 := a, c1 := b } = none) :
    main S T0 Tf dt a b n = create_failed T0 { c0 := a, c1 := b } := by
  unfold main
  simp only [h]

theorem main_create_some (n : Nat) (mem : σ)
    (h : S.OSCStepCreate airy_system none T0 { c0 := a, c1 := b } = some mem) :
    main S T0 Tf dt a b n =
      driver_loop S Tf dt n (loop_entry T0 { c0 := a, c1 := b }
        (S.OSCStepSStolerances mem (1 / 1000000) (1 / 100000000))) := by
  unfold main
  simp only [h]

theorem main_loop_inv (n : Nat) (mem : σ)
    (h : S.OSCStepCreate airy_system none T0 { c0 := a, c1 := b } = some mem) :
    loop_inv T0 Tf dt (main S T0 Tf dt a b n) := by
  rw [main_create_some S T0 Tf dt a b n mem h]
  exact loop_inv_driver_loop S Tf dt T0 n _ (loop_inv_entry Tf dt T0 _ _)

/-- Against a stub that fails or reports its target, with `dt > 0`, `main` has returned
after `⌈(Tf - T0) / dt⌉ + 1` evaluations of the loop condition. -/
theorem main_returns (hdt : 0 < dt) (hS : FailsOrReportsTarget S) (n : Nat)
    (hn : ⌈(Tf - T0) / dt⌉₊ + 1 ≤ n) :
    ∃ code, (main S T0 Tf dt a b n).status = Status.exited code := by
  cases hc : S.OSCStepCreate airy_system none T0 { c0 := a, c1 := b } with
  | none =>
    rw [main_create_none S T0 Tf dt a b n hc]
    exact ⟨-1, rfl⟩
  | some mem =>
    rw [main_create_some S T0 Tf dt a b n mem hc]
    exact stops_within S Tf dt T0 _ _ hdt hS n hn

end Main

/-! ## Rounded arithmetic -/

section Rounded

variable {σ : Type} (S : OSCStep σ) (Tf dt : ℚ)

theorem loop_body_fl_id (c : Config σ) (mem : σ) :
    loop_body_fl id S Tf dt c mem = loop_body S Tf dt c mem := rfl

theorem loop_step_fl_id (c : Config σ) :
    loop_step_fl id S Tf dt c = loop_step S Tf dt c := by
  unfold loop_step_fl loop_step
  split <;> rfl

theorem driver_loop_fl_id (n : Nat) (c : Config σ) :
    driver_loop_fl id S Tf dt n c = driver_loop S Tf dt n c := by
  induction n generalizing c with
  | zero => rfl
  | succ n ih => rw [driver_loop_fl, driver_loop, loop_step_fl_id, ih]

/-- With no rounding, `main_fl` is `main`. -/
theorem main_fl_id (T0 a b : ℚ) (n : Nat) :
    main_fl id S T0 Tf dt a b n = main S T0 Tf dt a b n := by
  cases hc : S.OSCStepCreate airy_system none T0 { c0 := a, c1 := b } with
  | none =>
    unfold main_fl main
    simp only [hc]
  | some mem =>
    unfold main_fl main
    simp only [hc]
    exact driver_loop_fl_id S Tf dt n _

end Rounded

/-! ## The claims -/

/-- C1: for every time `t` and every state `(u1, u2)`, `airy_system` leaves `(u2, t * u1)`
in `ydot` (component 0 is `u2`, component 1 is `t * u1`) and returns 0, whatever `ydot`
held before and whatever the user-data pointer; at `t = 0` the result is `(u2, 0)`, and
at the negative time `-3` with state `(2, 5)` it is `(5, -6)`. -/
theorem airy_system_derivative (t u1 u2 : ℚ) (ydot : N_Vector) (user_data : VoidPtr) :
    (airy_system t { c0 := u1, c1 := u2 } ydot user_data).ydot = { c0 := u2, c1 := t * u1 } ∧
      NV_Ith_S (airy_system t { c0 := u1, c1 := u2 } ydot user_data).ydot 0 = u2 ∧
      NV_Ith_S (airy_system t { c0 := u1, c1 := u2 } ydot user_data).ydot 1 = t * u1 ∧
      (airy_system t { c0 := u1, c1 := u2 } ydot user_data).status = 0 ∧
      (airy_system 0 { c0 := u1, c1 := u2 } ydot user_data).ydot = { c0 := u2, c1 := 0 } ∧
      (airy_system (-3) { c0 := 2, c1 := 5 } ydot user_data).ydot = { c0 := 5, c1 := -6 } := by
  refine ⟨?_, ?_, ?_, ?_, ?_, ?_⟩ <;>
    norm_num [airy_system, NV_Ith_S, NV_Ith_S_assign]

/-- C9: two calls of `airy_system` with the same time and the same input state give
the same `ydot` and the same status, whatever the two user-data pointers, whatever
the two derivative buffers held and whatever earlier calls were made on them; the
input state `y` is left as it was. -/
theorem airy_system_deterministic (t : ℚ) (y ydot1 ydot2 : N_Vector)
    (user_data1 user_data2 : VoidPtr) (earlier1 earlier2 : List RhsCall) :
    (airy_system t y (rhs_history earlier1 ydot1) user_data1).ydot =
        (airy_system t y (rhs_history earlier2 ydot2) user_data2).ydot ∧
      (airy_system t y (rhs_history earlier1 ydot1) user_data1).status =
        (airy_system t y (rhs_history earlier2 ydot2) user_data2).status ∧
      (airy_system t y (rhs_history earlier1 ydot1) user_data1).y = y := by
  refine ⟨?_, rfl, rfl⟩
  simp [airy_system, NV_Ith_S_assign]

/-- C2: if the `k`-th call of `OSCStepEvolve` made by `main` (`k ≥ 1`) returns a negative
status, then every earlier call returned a non-negative one, and from `k` evaluations
of the loop condition on `main` has returned -1 (a non-zero exit code) having printed
exactly `k - 1` records and made exactly `k` solver calls, so no `(k+1)`-th call. -/
theorem first_negative_status_stops {σ : Type} (S : OSCStep σ) (T0 Tf dt a b : ℚ)
    (m k : Nat) (call : EvolveCall) (hk : 1 ≤ k)
    (hcall : (main S T0 Tf dt a b m).calls[k - 1]? = some call) (hneg : call.flag < 0)
    (n : Nat) (hn : k ≤ n) :
    (main S T0 Tf dt a b n).status = Status.exited (-1) ∧ (-1 : Int) ≠ 0 ∧
      (main S T0 Tf dt a b n).cout.length = k - 1 ∧
      (main S T0 Tf dt a b n).calls.length = k ∧
      all_succeeded ((main S T0 Tf dt a b n).calls.take (k - 1)) := by
  cases hc : S.OSCStepCreate airy_system none T0 { c0 := a, c1 := b } with
  | none =>
    rw [main_create_none S T0 Tf dt a b m hc] at hcall
    simp [create_failed] at hcall
  | some mem =>
    rw [main_create_some S T0 Tf dt a b m mem hc] at hcall
    rw [main_create_some S T0 Tf dt a b n mem hc]
    obtain ⟨heq, hst, hlen, hout, -, hall⟩ :=
      first_failure S Tf dt T0 _ _ m k call hk hcall hneg n hn
    rw [heq]
    exact ⟨hst, by decide, hout, hlen, hall⟩

/-- Witness for C2 with `k = 5`: a stub failing on its fifth call, the example's
constants; four records, five calls, exit code -1. -/
theorem first_negative_status_stops_witness :
    1 ≤ 5 ∧
      (main (stub_fail_at 5 0) 0 2 (1 / 100) airy_ai_0 airy_ai_prime_0 5).calls[5 - 1]? =
        some { t_before := 1 / 25, tout := 1 / 20, flag := -1, tret := 0 } ∧
      (-1 : Int) < 0 ∧ 5 ≤ 7 ∧
      (main (stub_fail_at 5 0) 0 2 (1 / 100) airy_ai_0 airy_ai_prime_0 7).status =
        Status.exited (-1) ∧
      (main (stub_fail_at 5 0) 0 2 (1 / 100) airy_ai_0 airy_ai_prime_0 7).cout.length = 4 ∧
      (main (stub_fail_at 5 0) 0 2 (1 / 100) airy_ai_0 airy_ai_prime_0 7).calls.length = 5 := by
  have hcall : (main (stub_fail_at 5 0) 0 2 (1 / 100) airy_ai_0 airy_ai_prime_0 5).calls[5 - 1]? =
      some { t_before := 1 / 25, tout := 1 / 20, flag := -1, tret := 0 } := by
    norm_num [main, driver_loop, loop_step, loop_body, stub_fail_at, loop_entry, ARK_NORMAL]
  have h := first_negative_status_stops (stub_fail_at 5 0) 0 2 (1 / 100) airy_ai_0
    airy_ai_prime_0 5 5 _ (by decide) hcall (by decide) 7 (by decide)
  exact ⟨by decide, hcall, by decide, by decide, h.1, h.2.2.1, h.2.2.2.1⟩

/-- C7: whenever `main` has returned, its exit code is 0 exactly if solver creation gave
a non-null handle and every solver step made returned a non-negative status, and is
-1 otherwise; when creation gives the null handle `main` returns -1 with no solver
step made and no record printed; and against a stub that fails or reports its
target, with `dt > 0`, `main` does return. -/
theorem exit_code_characterisation {σ : Type} (S : OSCStep σ) (T0 Tf dt a b : ℚ) :
    (∀ n code, (main S T0 Tf dt a b n).status = Status.exited code →
        (code = 0 ↔
          ((S.OSCStepCreate airy_system none T0 { c0 := a, c1 := b }).isSome ∧
            all_succeeded (main S T0 Tf dt a b n).calls)) ∧
        (code ≠ 0 → code = -1)) ∧
      (S.OSCStepCreate airy_system none T0 { c0 := a, c1 := b } = none →
        ∀ n, (main S T0 Tf dt a b n).status = Status.exited (-1) ∧
          (main S T0 Tf dt a b n).calls = [] ∧ (main S T0 Tf dt a b n).cout = []) ∧
      (0 < dt → FailsOrReportsTarget S →
        ∃ N, ∀ n, N ≤ n → ∃ code, (main S T0 Tf dt a b n).status = Status.exited code) := by
  refine ⟨?_, ?_, ?_⟩
  · intro n code hst
    cases hc : S.OSCStepCreate airy_system none T0 { c0 := a, c1 := b } with
    | none =>
      rw [main_create_none S T0 Tf dt a b n hc] at hst
      simp only [create_failed, Status.exited.injEq] at hst
      subst hst
      simp
    | some mem =>
      have ho := (main_loop_inv S T0 Tf dt a b n mem hc).2.2.2.2
      simp only [outcome_ok, hst] at ho
      rcases ho with ⟨hcode, hall, -⟩ | ⟨hcode, init, last, hcalls, -, hlast, -⟩
      · subst hcode
        simp [hall]
      · subst hcode
        refine ⟨⟨fun h => absurd h (by decide), fun h => ?_⟩, fun _ => rfl⟩
        have hmem : last ∈ (main S T0 Tf dt a b n).calls := by
          rw [hcalls]
          simp
        exact absurd (h.2 last hmem) (not_le.2 hlast)
  · intro hc n
    rw [main_create_none S T0 Tf dt a b n hc]
    exact ⟨rfl, rfl, rfl⟩
  · intro hdt hS
    exact ⟨⌈(Tf - T0) / dt⌉₊ + 1, fun n hn => main_returns S T0 Tf dt a b hdt hS n hn⟩

/-- Witness for C7: the three parts at concrete stubs: a run that returns 0, a null
handle, and a stub meeting the termination hypotheses. -/
theorem exit_code_characterisation_witness :
    (main stub_ok 0 1 (3 / 10) airy_ai_0 airy_ai_prime_0 5).status = Status.exited 0 ∧
      ((0 : Int) = 0 ↔
        ((stub_ok.OSCStepCreate airy_system none 0
            { c0 := airy_ai_0, c1 := airy_ai_prime_0 }).isSome ∧
          all_succeeded (main stub_ok 0 1 (3 / 10) airy_ai_0 airy_ai_prime_0 5).calls)) ∧
      stub_null.OSCStepCreate airy_system none 0
        { c0 := airy_ai_0, c1 := airy_ai_prime_0 } = none ∧
      (main stub_null 0 1 (3 / 10) airy_ai_0 airy_ai_prime_0 5).status = Status.exited (-1) ∧
      (0 : ℚ) < 3 / 10 ∧ FailsOrReportsTarget stub_ok ∧
      ∃ N, ∀ n, N ≤ n →
        ∃ code, (main stub_ok 0 1 (3 / 10) airy_ai_0 airy_ai_prime_0 n).status =
          Status.exited code := by
  have h := exit_code_characterisation stub_ok 0 1 (3 / 10) airy_ai_0 airy_ai_prime_0
  have h2 := exit_code_characterisation stub_null 0 1 (3 / 10) airy_ai_0 airy_ai_prime_0
  have hst : (main stub_ok 0 1 (3 / 10) airy_ai_0 airy_ai_prime_0 5).status =
      Status.exited 0 := by
    norm_num [main, driver_loop, loop_step, loop_body, stub_ok, loop_entry, ARK_NORMAL]
  have hdt : (0 : ℚ) < 3 / 10 := by norm_num
  have hS : FailsOrReportsTarget stub_ok := fun _ _ _ _ _ => Or.inr rfl
  exact ⟨hst, (h.1 5 0 hst).1, rfl, (h2.2.1 rfl 5).1, hdt, hS, h.2.2 hdt hS⟩

/-- C3 fails on both early returns: when the first solver step returns -1, `main` returns
-1 with one vector and one handle acquired and neither released; when creation
returns the null handle, `main` returns -1 with the vector acquired and not released.
(On the normal path, as the last part shows on the stub that succeeds, each is
released once.) -/
theorem release_skipped_on_early_return :
    ((main (stub_fail_at 1 0) 0 2 (1 / 100) airy_ai_0 airy_ai_prime_0 3).status =
        Status.exited (-1) ∧
      (main (stub_fail_at 1 0) 0 2 (1 / 100) airy_ai_0 airy_ai_prime_0 3).y0_acquired = 1 ∧
      (main (stub_fail_at 1 0) 0 2 (1 / 100) airy_ai_0 airy_ai_prime_0 3).mem_acquired = 1 ∧
      (main (stub_fail_at 1 0) 0 2 (1 / 100) airy_ai_0 airy_ai_prime_0 3).y0_released = 0 ∧
      (main (stub_fail_at 1 0) 0 2 (1 / 100) airy_ai_0 airy_ai_prime_0 3).mem_released = 0) ∧
    ((main stub_null 0 2 (1 / 100) airy_ai_0 airy_ai_prime_0 3).status = Status.exited (-1) ∧
      (main stub_null 0 2 (1 / 100) airy_ai_0 airy_ai_prime_0 3).y0_acquired = 1 ∧
      (main stub_null 0 2 (1 / 100) airy_ai_0 airy_ai_prime_0 3).y0_released = 0) ∧
    ((main stub_ok 0 1 (3 / 10) airy_ai_0 airy_ai_prime_0 5).status = Status.exited 0 ∧
      (main stub_ok 0 1 (3 / 10) airy_ai_0 airy_ai_prime_0 5).y0_released = 1 ∧
      (main stub_ok 0 1 (3 / 10) airy_ai_0 airy_ai_prime_0 5).mem_released = 1) := by
  refine ⟨?_, ?_, ?_⟩
  · norm_num [main, driver_loop, loop_step, loop_body, stub_fail_at, loop_entry, ARK_NORMAL]
  · simp [main, stub_null, create_failed]
  · norm_num [main, driver_loop, loop_step, loop_body, stub_ok, loop_entry, ARK_NORMAL]

/-- The release counters on every return of `main`: both are 1 after a return of 0, both
are 0 after a return of -1. -/
theorem release_counts {σ : Type} (S : OSCStep σ) (T0 Tf dt a b : ℚ) (n : Nat) (code : Int)
    (hst : (main S T0 Tf dt a b n).status = Status.exited code) :
    (code = 0 → (main S T0 Tf dt a b n).y0_released = 1 ∧
        (main S T0 Tf dt a b n).mem_released = 1) ∧
      (code ≠ 0 → (main S T0 Tf dt a b n).y0_released = 0 ∧
        (main S T0 Tf dt a b n).mem_released = 0) := by
  cases hc : S.OSCStepCreate airy_system none T0 { c0 := a, c1 := b } with
  | none =>
    rw [main_create_none S T0 Tf dt a b n hc] at hst ⊢
    simp only [create_failed, Status.exited.injEq] at hst
    subst hst
    simp [create_failed]
  | some mem =>
    have ho := (main_loop_inv S T0 Tf dt a b n mem hc).2.2.2.2
    simp only [outcome_ok, hst] at ho
    rcases ho with ⟨hcode, -, -, -, -, h1, h2⟩ | ⟨hcode, init, last, -, -, -, -, -, h1, h2⟩
    · subst hcode
      simp [h1, h2]
    · subst hcode
      simp [h1, h2]

/-- C8 as stated fails: a stub whose fifth call is the first to return a negative
status and stores 999 as the time reached; the call was made at `t = 1/25`, and the
diagnostic names 999. -/
theorem failure_time_counterexample :
    (main (stub_fail_at 5 999) 0 2 (1 / 100) airy_ai_0 airy_ai_prime_0 5).calls.map
        EvolveCall.flag = [0, 0, 0, 0, -1] ∧
      (main (stub_fail_at 5 999) 0 2 (1 / 100) airy_ai_0 airy_ai_prime_0 5).calls[4]? =
        some { t_before := 1 / 25, tout := 1 / 20, flag := -1, tret := 999 } ∧
      (main (stub_fail_at 5 999) 0 2 (1 / 100) airy_ai_0 airy_ai_prime_0 5).cerr =
        [Diagnostic.step_failed 999] ∧
      (main (stub_fail_at 5 999) 0 2 (1 / 100) airy_ai_0 airy_ai_prime_0 5).cerr ≠
        [Diagnostic.step_failed (1 / 25)] := by
  refine ⟨?_, ?_, ?_, ?_⟩ <;>
    norm_num [main, driver_loop, loop_step, loop_body, stub_fail_at, loop_entry, ARK_NORMAL]

/-- C8 amended: if the `k`-th call of `OSCStepEvolve` is the first to return a negative
status, the one diagnostic printed names the time that call stored in its reached-time
output.  The call itself was made at the time stored by call `k - 1` (at `T0` when
`k = 1`), and the diagnostic names that time when the failing call stored it back. -/
theorem failure_time_is_stored_time {σ : Type} (S : OSCStep σ) (T0 Tf dt a b : ℚ)
    (m k : Nat) (call : EvolveCall) (hk : 1 ≤ k)
    (hcall : (main S T0 Tf dt a b m).calls[k - 1]? = some call) (hneg : call.flag < 0)
    (n : Nat) (hn : k ≤ n) :
    (main S T0 Tf dt a b n).cerr = [Diagnostic.step_failed call.tret] ∧
      (k = 1 → call.t_before = T0) ∧
      (∀ prev, (main S T0 Tf dt a b n).calls[k - 2]? = some prev → 2 ≤ k →
        call.t_before = prev.tret) ∧
      (call.tret = call.t_before →
        (main S T0 Tf dt a b n).cerr = [Diagnostic.step_failed call.t_before]) := by
  cases hc : S.OSCStepCreate airy_system none T0 { c0 := a, c1 := b } with
  | none =>
    rw [main_create_none S T0 Tf dt a b m hc] at hcall
    simp [create_failed] at hcall
  | some mem =>
    have hinv := main_loop_inv S T0 Tf dt a b m mem hc
    have heq : main S T0 Tf dt a b n = main S T0 Tf dt a b m := by
      rw [main_create_some S T0 Tf dt a b m mem hc] at hcall
      rw [main_create_some S T0 Tf dt a b n mem hc, main_create_some S T0 Tf dt a b m mem hc]
      exact (first_failure S Tf dt T0 _ _ m k call hk hcall hneg n hn).1
    have hcerr : (main S T0 Tf dt a b m).cerr = [Diagnostic.step_failed call.tret] := by
      rw [main_create_some S T0 Tf dt a b m mem hc] at hcall ⊢
      exact (first_failure S Tf dt T0 _ _ m k call hk hcall hneg n hn).2.2.2.2.1
    rw [heq]
    refine ⟨hcerr, ?_, ?_, ?_⟩
    · intro h1
      subst h1
      exact linked_head dt T0 _ _ hinv.1 call hcall
    · intro prev hprev h2
      have hidx : k - 1 = (k - 2) + 1 := by omega
      rw [hidx] at hcall
      exact linked_next dt T0 _ _ hinv.1 (k - 2) prev call hprev hcall
    · intro h1
      rw [hcerr, h1]

/-- Witness for the amended C8: the stub of the counterexample, with `k = 5`. -/
theorem failure_time_is_stored_time_witness :
    1 ≤ 5 ∧
      (main (stub_fail_at 5 999) 0 2 (1 / 100) airy_ai_0 airy_ai_prime_0 5).calls[5 - 1]? =
        some { t_before := 1 / 25, tout := 1 / 20, flag := -1, tret := 999 } ∧
      (-1 : Int) < 0 ∧ 5 ≤ 6 ∧
      (main (stub_fail_at 5 999) 0 2 (1 / 100) airy_ai_0 airy_ai_prime_0 6).cerr =
        [Diagnostic.step_failed 999] := by
  have hcall : (main (stub_fail_at 5 999) 0 2 (1 / 100) airy_ai_0 airy_ai_prime_0 5).calls[5 - 1]? =
      some { t_before := 1 / 25, tout := 1 / 20, flag := -1, tret := 999 } := by
    norm_num [main, driver_loop, loop_step, loop_body, stub_fail_at, loop_entry, ARK_NORMAL]
  exact ⟨by decide, hcall, by decide, by decide,
    (failure_time_is_stored_time (stub_fail_at 5 999) 0 2 (1 / 100) airy_ai_0
      airy_ai_prime_0 5 5 _ (by decide) hcall (by decide) 6 (by decide)).1⟩

/-- The number of loop passes in the example: `⌈(2 - 0) / (1/100)⌉ = 200`. -/
theorem example_ceil : ⌈((2 : ℚ) - 0) / (1 / 100)⌉₊ = 200 := by
  have h : ((2 : ℚ) - 0) / (1 / 100) = ((200 : ℕ) : ℚ) := by norm_num
  rw [h, Nat.ceil_natCast]

/-- The number of loop passes for `T0 = 0`, `Tf = 1`, `dt = 3/10`:
`⌈(1 - 0) / (3/10)⌉ = 4`. -/
theorem overshoot_ceil : ⌈((1 : ℚ) - 0) / (3 / 10)⌉₊ = 4 := by
  rw [Nat.ceil_eq_iff (by decide)]
  norm_num

/-- C4: for `T0 < Tf`, `dt > 0` and a stub that succeeds on every call and reports the
requested target as the time reached (solver creation having succeeded), `main`
returns 0 having printed exactly `⌈(Tf - T0) / dt⌉` records, the last of them with a
time `≥ Tf`; for `T0 = 0`, `Tf = 2`, `dt = 1/100` that is exactly 200 records. -/
theorem record_count_is_ceil {σ : Type} (S : OSCStep σ) (T0 Tf dt a b : ℚ) (mem : σ)
    (hc : S.OSCStepCreate airy_system none T0 { c0 := a, c1 := b } = some mem)
    (hlt : T0 < Tf) (hdt : 0 < dt) (hA : AlwaysSucceeds S) (hR : ReportsTarget S)
    (n : Nat) (hn : ⌈(Tf - T0) / dt⌉₊ < n) :
    (main S T0 Tf dt a b n).status = Status.exited 0 ∧
      (main S T0 Tf dt a b n).cout.length = ⌈(Tf - T0) / dt⌉₊ ∧
      (∃ r, (main S T0 Tf dt a b n).cout.getLast? = some r ∧ Tf ≤ r.t) ∧
      (T0 = 0 → Tf = 2 → dt = 1 / 100 → (main S T0 Tf dt a b n).cout.length = 200) := by
  rw [main_create_some S T0 Tf dt a b n mem hc]
  obtain ⟨hst, hcout⟩ := run_done S Tf dt T0 { c0 := a, c1 := b }
    (S.OSCStepSStolerances mem (1 / 1000000) (1 / 100000000)) hdt hA hR n hn
  obtain ⟨-, hlen, hlast⟩ := run_ok S Tf dt T0 { c0 := a, c1 := b }
    (S.OSCStepSStolerances mem (1 / 1000000) (1 / 100000000)) hdt hA hR _ (Nat.le_refl _)
  have hpos : 1 ≤ ⌈(Tf - T0) / dt⌉₊ :=
    Nat.ceil_pos.2 (div_pos (sub_pos.2 hlt) hdt)
  obtain ⟨r, hr, hrt⟩ := hlast hpos
  have hge : Tf ≤ T0 + (⌈(Tf - T0) / dt⌉₊ : ℚ) * dt := by
    have h1 : (Tf - T0) / dt ≤ (⌈(Tf - T0) / dt⌉₊ : ℚ) := Nat.le_ceil _
    have h2 := (div_le_iff₀ hdt).1 h1
    linarith
  rw [hcout]
  refine ⟨hst, hlen, ⟨r, hr, by rw [hrt]; exact hge⟩, ?_⟩
  intro h0 h2 h3
  rw [hlen, h0, h2, h3]
  exact example_ceil

/-- Witness for C4: the succeeding stub with the example's constants; 200 records. -/
theorem record_count_is_ceil_witness :
    stub_ok.OSCStepCreate airy_system none 0 { c0 := airy_ai_0, c1 := airy_ai_prime_0 } =
        some 0 ∧
      (0 : ℚ) < 2 ∧ (0 : ℚ) < 1 / 100 ∧ AlwaysSucceeds stub_ok ∧ ReportsTarget stub_ok ∧
      ⌈((2 : ℚ) - 0) / (1 / 100)⌉₊ < 201 ∧
      (main stub_ok 0 2 (1 / 100) airy_ai_0 airy_ai_prime_0 201).status = Status.exited 0 ∧
      (main stub_ok 0 2 (1 / 100) airy_ai_0 airy_ai_prime_0 201).cout.length = 200 ∧
      ∃ r, (main stub_ok 0 2 (1 / 100) airy_ai_0 airy_ai_prime_0 201).cout.getLast? = some r ∧
        2 ≤ r.t := by
  have hA : AlwaysSucceeds stub_ok := fun _ _ _ _ _ => le_refl _
  have hR : ReportsTarget stub_ok := fun _ _ _ _ _ => rfl
  have hn : ⌈((2 : ℚ) - 0) / (1 / 100)⌉₊ < 201 := by
    rw [example_ceil]
    decide
  have h := record_count_is_ceil stub_ok 0 2 (1 / 100) airy_ai_0 airy_ai_prime_0 0 rfl
    (by norm_num) (by norm_num) hA hR 201 hn
  exact ⟨rfl, by norm_num, by norm_num, hA, hR, hn, h.1, h.2.2.2 rfl rfl rfl, h.2.2.1⟩

/-- C10: the target of every solver call is the time at which the call was made plus
`dt`, never a value clamped to `Tf`.  So for `T0 < Tf`, `dt > 0` and a stub that succeeds
on every call and reports the requested target (solver creation having succeeded), the
last printed time `t_last` satisfies `Tf ≤ t_last < Tf + dt`; and for `T0 = 0`, `Tf = 1`,
`dt = 3/10` it is `6/5`, strictly greater than `Tf`. -/
theorem no_clamping_overshoot {σ : Type} (S : OSCStep σ) (T0 Tf dt a b : ℚ) (n : Nat) :
    (∀ call ∈ (main S T0 Tf dt a b n).calls, call.tout = call.t_before + dt) ∧
      ((S.OSCStepCreate airy_system none T0 { c0 := a, c1 := b }).isSome →
        T0 < Tf → 0 < dt → AlwaysSucceeds S → ReportsTarget S → ⌈(Tf - T0) / dt⌉₊ < n →
        ∃ r, (main S T0 Tf dt a b n).cout.getLast? = some r ∧ Tf ≤ r.t ∧ r.t < Tf + dt ∧
          (T0 = 0 → Tf = 1 → dt = 3 / 10 → r.t = 6 / 5 ∧ Tf < r.t)) := by
  constructor
  · cases hc : S.OSCStepCreate airy_system none T0 { c0 := a, c1 := b } with
    | none =>
      rw [main_create_none S T0 Tf dt a b n hc]
      intro call hmem
      simp [create_failed] at hmem
    | some mem =>
      exact linked_tout dt T0 _ _ (main_loop_inv S T0 Tf dt a b n mem hc).1
  · intro hsome hlt hdt hA hR hn
    obtain ⟨mem, hc⟩ := Option.isSome_iff_exists.1 hsome
    rw [main_create_some S T0 Tf dt a b n mem hc]
    obtain ⟨-, hcout⟩ := run_done S Tf dt T0 { c0 := a, c1 := b }
      (S.OSCStepSStolerances mem (1 / 1000000) (1 / 100000000)) hdt hA hR n hn
    obtain ⟨-, -, hlast⟩ := run_ok S Tf dt T0 { c0 := a, c1 := b }
      (S.OSCStepSStolerances mem (1 / 1000000) (1 / 100000000)) hdt hA hR _ (Nat.le_refl _)
    have hx : 0 < (Tf - T0) / dt := div_pos (sub_pos.2 hlt) hdt
    obtain ⟨r, hr, hrt⟩ := hlast (Nat.ceil_pos.2 hx)
    have hge : Tf ≤ T0 + (⌈(Tf - T0) / dt⌉₊ : ℚ) * dt := by
      have h1 : (Tf - T0) / dt ≤ (⌈(Tf - T0) / dt⌉₊ : ℚ) := Nat.le_ceil _
      have h2 := (div_le_iff₀ hdt).1 h1
      linarith
    have hup : T0 + (⌈(Tf - T0) / dt⌉₊ : ℚ) * dt < Tf + dt := by
      have h1 : (⌈(Tf - T0) / dt⌉₊ : ℚ) < (Tf - T0) / dt + 1 :=
        Nat.ceil_lt_add_one (le_of_lt hx)
      have h2 : (⌈(Tf - T0) / dt⌉₊ : ℚ) * dt < ((Tf - T0) / dt + 1) * dt :=
        mul_lt_mul_of_pos_right h1 hdt
      have h3 : ((Tf - T0) / dt + 1) * dt = Tf - T0 + dt := by
        field_simp
      linarith
    rw [hcout]
    refine ⟨r, hr, by rw [hrt]; exact hge, by rw [hrt]; exact hup, ?_⟩
    intro h0 h1 h3
    rw [hrt, h0, h1, h3, overshoot_ceil]
    norm_num

/-- Witness for C10: the succeeding stub with `T0 = 0`, `Tf = 1`, `dt = 3/10`: the
targets passed are 3/10, 3/5, 9/10, 6/5 and the last printed time exceeds `Tf = 1`. -/
theorem no_clamping_overshoot_witness :
    (stub_ok.OSCStepCreate airy_system none 0
        { c0 := airy_ai_0, c1 := airy_ai_prime_0 }).isSome ∧
      (0 : ℚ) < 1 ∧ (0 : ℚ) < 3 / 10 ∧ AlwaysSucceeds stub_ok ∧ ReportsTarget stub_ok ∧
      ⌈((1 : ℚ) - 0) / (3 / 10)⌉₊ < 5 ∧
      (main stub_ok 0 1 (3 / 10) airy_ai_0 airy_ai_prime_0 5).calls.map EvolveCall.tout =
        [3 / 10, 3 / 5, 9 / 10, 6 / 5] ∧
      ∃ r, (main stub_ok 0 1 (3 / 10) airy_ai_0 airy_ai_prime_0 5).cout.getLast? = some r ∧
        1 ≤ r.t ∧ r.t < 1 + 3 / 10 ∧ 1 < r.t := by
  have hA : AlwaysSucceeds stub_ok := fun _ _ _ _ _ => le_refl _
  have hR : ReportsTarget stub_ok := fun _ _ _ _ _ => rfl
  have hn : ⌈((1 : ℚ) - 0) / (3 / 10)⌉₊ < 5 := by
    rw [overshoot_ceil]
    decide
  obtain ⟨r, hr, h1, h2, h3⟩ :=
    (no_clamping_overshoot stub_ok 0 1 (3 / 10) airy_ai_0 airy_ai_prime_0 5).2 rfl
      (by norm_num) (by norm_num) hA hR hn
  refine ⟨rfl, by norm_num, by norm_num, hA, hR, hn, ?_, r, hr, h1, h2, (h3 rfl rfl rfl).2⟩
  norm_num [main, driver_loop, loop_step, loop_body, stub_ok, loop_entry, ARK_NORMAL]

end Oscode
